import Mathlib

/-!
Shallow embedding of `src/app.js` (Wetter-Finder app).

Numbers that flow through the JavaScript code are modelled by `JsNum`:
an exact rational together with the three non-finite IEEE values the
source can actually produce (`NaN` from failed `Number`/`parseFloat`
coercions and from `0/0`, and the two infinities from division by zero).
Float rounding is idealised away (sums and means are exact), which is the
standard idealisation for the arithmetic claims under scrutiny; the NaN
propagation rules of JavaScript arithmetic are modelled exactly.

The candidate generator works on real numbers (it uses `Math.cos` /
`Math.sin` / `Math.PI`), so it is embedded over `ℝ` with `Real.cos`,
`Real.sin` and `Real.pi`.

`Array.prototype.sort` with a comparator that is consistent (a total
preorder) is required by the ECMAScript standard (ES2019 and later) to
produce the stable sorted order; it is embedded as a stable insertion
sort (`jsSort`), which produces exactly that order.  When the comparator
returns `NaN`, the standard's `SortCompare` treats the result as `+0`
(elements compare equal); `sortCompareNonpos` models this.
-/

namespace Sonnenschein

/-- Model of a JavaScript number as it occurs in `app.js`: an exact
rational, `NaN` (e.g. `Number("abc")`, `parseFloat("abc")`, `0/0`),
or the two infinities (e.g. `x/0` with `x ≠ 0`). -/
inductive JsNum : Type where
  | nan : JsNum
  | inf : JsNum
  | negInf : JsNum
  | num : ℚ → JsNum
deriving DecidableEq

/-- `Number.isNaN` / the global `isNaN` on an already-coerced number. -/
def JsNum.isNaN : JsNum → Bool
  | .nan => true
  | _ => false

/-- True exactly for finite numbers (`Number.isFinite`). -/
def JsNum.isFinite : JsNum → Bool
  | .num _ => true
  | _ => false

/-- JavaScript `+` on numbers: `NaN` is absorbing, `Infinity + -Infinity = NaN`. -/
def JsNum.add : JsNum → JsNum → JsNum
  | .nan, _ => .nan
  | _, .nan => .nan
  | .inf, .negInf => .nan
  | .negInf, .inf => .nan
  | .inf, _ => .inf
  | _, .inf => .inf
  | .negInf, _ => .negInf
  | _, .negInf => .negInf
  | .num a, .num b => .num (a + b)

/-- JavaScript `-` on numbers. -/
def JsNum.sub : JsNum → JsNum → JsNum
  | .nan, _ => .nan
  | _, .nan => .nan
  | .inf, .inf => .nan
  | .negInf, .negInf => .nan
  | .inf, _ => .inf
  | .negInf, _ => .negInf
  | _, .inf => .negInf
  | _, .negInf => .inf
  | .num a, .num b => .num (a - b)

/-- JavaScript `/` on numbers: `0/0 = NaN`, `x/0 = ±Infinity` for `x ≠ 0`
(the only denominators the source produces are non-negative counts). -/
def JsNum.div : JsNum → JsNum → JsNum
  | .nan, _ => .nan
  | _, .nan => .nan
  | .inf, .inf => .nan
  | .inf, .negInf => .nan
  | .negInf, .inf => .nan
  | .negInf, .negInf => .nan
  | .inf, .num b => if b < 0 then .negInf else .inf
  | .negInf, .num b => if b < 0 then .inf else .negInf
  | .num _, .inf => .num 0
  | .num _, .negInf => .num 0
  | .num a, .num b =>
    if b = 0 then (if a = 0 then .nan else if a < 0 then .negInf else .inf)
    else .num (a / b)

/-- JavaScript strict inequality `!==` on numbers: `NaN !== x` is always
true (also for `x = NaN`); on non-`NaN` values it is plain disequality. -/
def JsNum.strictNeq (a b : JsNum) : Bool :=
  if a = b then a.isNaN else true

/-- One record of `weather[0].hourly` after the numeric coercions the
source applies (`Number(h.chanceofremdry)` and `parseFloat(h.precipMM)`):
`JsNum.nan` stands for a value that could not be parsed as a number. -/
structure Hour : Type where
  chanceofremdry : JsNum
  precipMM : JsNum
deriving DecidableEq

/-- The record returned by a successful `getWeather` call
(`{ dryness, precip, nearest }` in `app.js`). -/
structure WeatherData : Type where
  dryness : JsNum
  precip : JsNum
  nearest : String
deriving DecidableEq

/-- The series-evaluation core of `getWeather` (src/app.js lines 166-186).
`hourly = none` models a response where `data.weather[0]` is missing or
`weather.hourly` is not an array (the source then throws
"Unvollständige Wetterdaten erhalten."); `hourly = some hs` models an
array-shaped series.  The source accumulates `drynessSum` and
`precipSum` in one `forEach` pass, then divides the dryness sum by
`hourly.length`. -/
def evalHourly (hourly : Option (List Hour)) (nearest : String) :
    Except String WeatherData :=
  match hourly with
  | none => .error "Unvollständige Wetterdaten erhalten."
  | some hs =>
    let sums := hs.foldl
      (fun s h => (s.1.add h.chanceofremdry, s.2.add h.precipMM))
      (JsNum.num 0, JsNum.num 0)
    .ok ⟨sums.1.div (JsNum.num (hs.length : ℚ)), sums.2, nearest⟩

/-- One entry of the `results` array built by `findBestWeather`
(src/app.js lines 130-136): the candidate point (the source copies
`pt.lat`/`pt.lon`; here the point is kept abstract as a value of type
`A`) together with the fetched weather data. -/
structure SiteEval (A : Type) : Type where
  point : A
  dryness : JsNum
  precip : JsNum
  nearest : String
deriving DecidableEq

/-- The result-collection loop of `findBestWeather` (src/app.js lines
125-141): candidates are processed strictly sequentially; a successful
fetch (`.ok`, always truthy in the source's `if (data)` test) pushes an
entry, a thrown error (`.error`) is logged and skipped. -/
def collectResults {A : Type} (fetch : A → Except String WeatherData) :
    List A → List (SiteEval A)
  | [] => []
  | p :: ps =>
    match fetch p with
    | .ok d => ⟨p, d.dryness, d.precip, d.nearest⟩ :: collectResults fetch ps
    | .error _ => collectResults fetch ps

/-- The sort comparator of `findBestWeather` (src/app.js lines 143-146):
`(a, b) => { if (b.dryness !== a.dryness) return b.dryness - a.dryness;
return a.precip - b.precip; }`. -/
def drynessCmp {A : Type} (a b : SiteEval A) : JsNum :=
  if JsNum.strictNeq b.dryness a.dryness then b.dryness.sub a.dryness
  else a.precip.sub b.precip

/-- Whether a comparator result sorts the first argument no later than
the second: the ECMAScript `SortCompare` maps a `NaN` comparator result
to `+0`, so `NaN` counts as "equal" here. -/
def sortCompareNonpos : JsNum → Bool
  | .nan => true
  | .inf => false
  | .negInf => true
  | .num q => decide (q ≤ 0)

/-- `a` may be placed before `b` by the sort (comparator value `≤ 0`). -/
def cmpLe {A : Type} (a b : SiteEval A) : Bool :=
  sortCompareNonpos (drynessCmp a b)

/-- Insert `a` after every element `b` of an already-sorted list with
`le b a` (so an element inserted later lands after equal elements
inserted earlier: stability). -/
def stableInsert {α : Type} (le : α → α → Bool) (a : α) : List α → List α
  | [] => [a]
  | b :: bs => if le b a then b :: stableInsert le a bs else a :: b :: bs

/-- Stable insertion sort, processing the array left to right.  For a
consistent comparator this is the order `Array.prototype.sort` is
required to produce (stable since ES2019). -/
def jsSort {α : Type} (le : α → α → Bool) (l : List α) : List α :=
  l.foldl (fun acc x => stableInsert le x acc) []

/-- The selection step of `findBestWeather` (src/app.js lines 143-147):
sort the results with `drynessCmp` and take `results[0]`
(`undefined`, i.e. `none`, when the list is empty). -/
def selectBest {A : Type} (l : List (SiteEval A)) : Option (SiteEval A) :=
  (jsSort cmpLe l).head?

/-- `findBestWeather` (src/app.js lines 124-148): collect the
per-candidate evaluations sequentially, then select the best.  `fetch`
abstracts `getWeather`, which either returns weather data or throws. -/
def findBestWeather {A : Type} (fetch : A → Except String WeatherData)
    (points : List A) : Option (SiteEval A) :=
  selectBest (collectResults fetch points)

/-- The validation in the form submit handler (src/app.js lines 30-36):
`location` is the already-trimmed input, `radiusKm` the result of
`parseFloat` on the radius field (`JsNum.nan` when unparsable); the
handler returns early iff the location is empty or `isNaN(radiusKm)`. -/
def submitAccepted (location : String) (radiusKm : JsNum) : Bool :=
  !((location == "") || radiusKm.isNaN)

/-- The radius that reaches `generateCandidatePoints` on a given submit
(src/app.js lines 42-49): when validation passes and geocoding finds the
place, the parsed radius is passed to the generator unchanged; otherwise
the generator is not invoked (`none`). -/
def radiusPassedToGenerator (location : String) (radiusKm : JsNum)
    (geoFound : Bool) : Option JsNum :=
  if submitAccepted location radiusKm && geoFound then some radiusKm else none

/-- `Math.PI / 180`, the `degToRad` constant of `generateCandidatePoints`. -/
noncomputable def degToRad : ℝ := Real.pi / 180

/-- The eight compass bearings of `generateCandidatePoints`
(src/app.js line 106). -/
noncomputable def directions : List ℝ := [0, 45, 90, 135, 180, 225, 270, 315]

/-- The offset point pushed for one bearing in the `directions.forEach`
loop (src/app.js lines 107-112), with `latDelta = radiusKm / 111` and
`lonDelta = radiusKm / (111 * Math.cos(lat * degToRad))` computed as in
lines 103-104 (they do not depend on the loop variable). -/
noncomputable def offsetPoint (lat lon radiusKm : ℝ) (angleDeg : ℝ) : ℝ × ℝ :=
  (lat + radiusKm / 111 * Real.cos (angleDeg * degToRad),
    lon + radiusKm / (111 * Real.cos (lat * degToRad)) * Real.sin (angleDeg * degToRad))

/-- `generateCandidatePoints` (src/app.js lines 96-114): the origin
followed by the eight bearing offsets, in `directions` order.  The
function is straight-line code with no branch and no throw, so it is
total here. -/
noncomputable def generateCandidatePoints (lat lon radiusKm : ℝ) : List (ℝ × ℝ) :=
  (lat, lon) :: directions.map (offsetPoint lat lon radiusKm)

/-- A site evaluation whose scores are finite numbers, given by plain
rationals — the shape described by the spec's data model (§3).  Used to
state the selector claims over numeric evaluations. -/
structure RatedSite (A : Type) : Type where
  point : A
  dryness : ℚ
  precip : ℚ
  nearest : String
deriving DecidableEq

/-- View a numeric evaluation as the `results`-array entry it denotes. -/
def RatedSite.toEval {A : Type} (r : RatedSite A) : SiteEval A :=
  ⟨r.point, .num r.dryness, .num r.precip, r.nearest⟩

/-- First minimum of `a :: l` under `le`: keep the current minimum on
ties, so the earliest minimal element wins. -/
def firstMinFold {α : Type} (le : α → α → Bool) (a : α) (l : List α) : α :=
  l.foldl (fun m x => if le m x then m else x) a

/-- `firstMinFold` transported to numeric evaluations. -/
def ratedFold {A : Type} (a : RatedSite A) (l : List (RatedSite A)) : RatedSite A :=
  l.foldl (fun m x => if cmpLe m.toEval x.toEval then m else x) a

/-- Spec-side ranking: `m` is at least as good as `x` under the spec's
order (primary key dryness score descending, tie-break total
precipitation ascending). -/
def beats {A : Type} (m x : RatedSite A) : Prop :=
  x.dryness < m.dryness ∨ (x.dryness = m.dryness ∧ m.precip ≤ x.precip)

/-- Spec-side ranking, strict version: `m` is strictly better than `x`. -/
def strictlyBeats {A : Type} (m x : RatedSite A) : Prop :=
  x.dryness < m.dryness ∨ (x.dryness = m.dryness ∧ m.precip < x.precip)

theorem JsNum.nan_add (x : JsNum) : JsNum.add .nan x = .nan := by
  cases x <;> rfl

theorem JsNum.add_nan (x : JsNum) : JsNum.add x .nan = .nan := by
  cases x <;> rfl

theorem JsNum.nan_div (x : JsNum) : JsNum.div .nan x = .nan := by
  cases x <;> rfl

theorem head?_stableInsert {α : Type} (le : α → α → Bool) (a : α) (l : List α) :
    (stableInsert le a l).head? =
      some (match l.head? with
        | none => a
        | some b => if le b a then b else a) := by
  cases l with
  | nil => rfl
  | cons b bs =>
    show (if le b a then b :: stableInsert le a bs else a :: b :: bs).head? = _
    by_cases h : le b a <;> simp [h]

theorem head?_jsSortAux {α : Type} (le : α → α → Bool) :
    ∀ (l acc : List α),
      (l.foldl (fun acc x => stableInsert le x acc) acc).head? =
        l.foldl (fun m x =>
          match m with
          | none => some x
          | some b => some (if le b x then b else x)) acc.head? := by
  intro l
  induction l with
  | nil => intro acc; rfl
  | cons x xs ih =>
    intro acc
    simp only [List.foldl_cons]
    rw [ih, head?_stableInsert]
    cases acc <;> rfl

theorem foldl_optionMin {α : Type} (le : α → α → Bool) :
    ∀ (l : List α) (a : α),
      l.foldl (fun m x =>
        match m with
        | none => some x
        | some b => some (if le b x then b else x)) (some a) =
      some (firstMinFold le a l) := by
  intro l
  induction l with
  | nil => intro a; rfl
  | cons x xs ih => intro a; exact ih (if le a x then a else x)

theorem selectBest_cons {A : Type} (a : SiteEval A) (l : List (SiteEval A)) :
    selectBest (a :: l) = some (firstMinFold cmpLe a l) := by
  show (l.foldl (fun acc x => stableInsert cmpLe x acc) [a]).head? = _
  rw [head?_jsSortAux]
  exact foldl_optionMin cmpLe l a

theorem mem_stableInsert {α : Type} (le : α → α → Bool) (a x : α) :
    ∀ l : List α, x ∈ stableInsert le a l ↔ x = a ∨ x ∈ l := by
  intro l
  induction l with
  | nil => simp [stableInsert]
  | cons b bs ih =>
    show x ∈ (if le b a then b :: stableInsert le a bs else a :: b :: bs) ↔ _
    by_cases h : le b a
    · simp [h, ih]
      tauto
    · simp [h]

theorem mem_jsSortAux {α : Type} (le : α → α → Bool) :
    ∀ (l acc : List α) (x : α),
      x ∈ l.foldl (fun acc y => stableInsert le y acc) acc ↔ x ∈ acc ∨ x ∈ l := by
  intro l
  induction l with
  | nil => intro acc x; simp
  | cons y ys ih =>
    intro acc x
    simp only [List.foldl_cons]
    rw [ih, mem_stableInsert]
    simp
    tauto

theorem mem_jsSort {α : Type} (le : α → α → Bool) (l : List α) (x : α) :
    x ∈ jsSort le l ↔ x ∈ l := by
  unfold jsSort
  rw [mem_jsSortAux]
  simp

theorem collectResults_eq_filterMap {A : Type}
    (fetch : A → Except String WeatherData) (points : List A) :
    collectResults fetch points = points.filterMap (fun p =>
      match fetch p with
      | .ok d => some ⟨p, d.dryness, d.precip, d.nearest⟩
      | .error _ => none) := by
  induction points with
  | nil => rfl
  | cons p ps ih =>
    cases h : fetch p <;>
      simp [collectResults, List.filterMap_cons, h, ih]

theorem collectResults_append {A : Type}
    (fetch : A → Except String WeatherData) (l₁ l₂ : List A) :
    collectResults fetch (l₁ ++ l₂) =
      collectResults fetch l₁ ++ collectResults fetch l₂ := by
  induction l₁ with
  | nil => rfl
  | cons p ps ih =>
    cases h : fetch p <;> simp [collectResults, h, ih]

theorem collectResults_eq_nil {A : Type}
    (fetch : A → Except String WeatherData) (points : List A)
    (h : ∀ p ∈ points, ∀ d, fetch p ≠ .ok d) :
    collectResults fetch points = [] := by
  induction points with
  | nil => rfl
  | cons p ps ih =>
    cases hf : fetch p with
    | ok d => exact absurd hf (h p (List.mem_cons_self p ps) d)
    | error e =>
      simp only [collectResults, hf]
      exact ih (fun q hq d => h q (List.mem_cons_of_mem p hq) d)

theorem mem_collectResults {A : Type}
    (fetch : A → Except String WeatherData) (points : List A) (e : SiteEval A)
    (he : e ∈ collectResults fetch points) :
    ∃ p ∈ points, fetch p = .ok ⟨e.dryness, e.precip, e.nearest⟩ ∧ e.point = p := by
  induction points with
  | nil => cases he
  | cons p ps ih =>
    cases hf : fetch p with
    | ok d =>
      rw [collectResults, hf] at he
      rcases List.mem_cons.1 he with h | h
      · subst h
        exact ⟨p, List.mem_cons_self p ps, hf, rfl⟩
      · obtain ⟨q, hq, hfq, hpt⟩ := ih h
        exact ⟨q, List.mem_cons_of_mem p hq, hfq, hpt⟩
    | error msg =>
      rw [collectResults, hf] at he
      obtain ⟨q, hq, hfq, hpt⟩ := ih he
      exact ⟨q, List.mem_cons_of_mem p hq, hfq, hpt⟩

theorem collectResults_mem_of_ok {A : Type}
    (fetch : A → Except String WeatherData) (points : List A) (p : A)
    (d : WeatherData) (hp : p ∈ points) (hd : fetch p = .ok d) :
    (⟨p, d.dryness, d.precip, d.nearest⟩ : SiteEval A) ∈
      collectResults fetch points := by
  induction points with
  | nil => cases hp
  | cons q qs ih =>
    rcases List.mem_cons.1 hp with h | h
    · subst h
      rw [collectResults, hd]
      exact List.mem_cons_self _ _
    · cases hf : fetch q with
      | ok d' =>
        rw [collectResults, hf]
        exact List.mem_cons_of_mem _ (ih h)
      | error msg =>
        rw [collectResults, hf]
        exact ih h

theorem map_point_collectResults_sublist {A : Type}
    (fetch : A → Except String WeatherData) (points : List A) :
    List.Sublist ((collectResults fetch points).map SiteEval.point) points := by
  induction points with
  | nil => simp [collectResults]
  | cons p ps ih =>
    cases hf : fetch p with
    | ok d =>
      rw [collectResults, hf]
      simpa using List.Sublist.cons₂ p ih
    | error msg =>
      rw [collectResults, hf]
      exact List.Sublist.cons p ih

theorem foldl_sums_num :
    ∀ (hq : List (ℚ × ℚ)) (a b : ℚ),
      (hq.map (fun v => Hour.mk (.num v.1) (.num v.2))).foldl
        (fun s h => (s.1.add h.chanceofremdry, s.2.add h.precipMM))
        (JsNum.num a, JsNum.num b) =
      (JsNum.num (a + (hq.map Prod.fst).sum), JsNum.num (b + (hq.map Prod.snd).sum)) := by
  intro hq
  induction hq with
  | nil => intro a b; simp
  | cons v vs ih =>
    intro a b
    simp only [List.map_cons, List.foldl_cons, List.sum_cons]
    have h1 : (JsNum.num a).add (JsNum.num v.1) = JsNum.num (a + v.1) := rfl
    have h2 : (JsNum.num b).add (JsNum.num v.2) = JsNum.num (b + v.2) := rfl
    rw [h1, h2, ih, add_assoc, add_assoc]

theorem foldl_sums_fst_nan (hs : List Hour) :
    ∀ (s : JsNum × JsNum), s.1 = .nan →
      (hs.foldl (fun s h => (s.1.add h.chanceofremdry, s.2.add h.precipMM)) s).1 = .nan := by
  induction hs with
  | nil => intro s h; exact h
  | cons x xs ih =>
    intro s h
    simp only [List.foldl_cons]
    exact ih _ (by rw [h, JsNum.nan_add])

theorem foldl_sums_snd_nan (hs : List Hour) :
    ∀ (s : JsNum × JsNum), s.2 = .nan →
      (hs.foldl (fun s h => (s.1.add h.chanceofremdry, s.2.add h.precipMM)) s).2 = .nan := by
  induction hs with
  | nil => intro s h; exact h
  | cons x xs ih =>
    intro s h
    simp only [List.foldl_cons]
    exact ih _ (by rw [h, JsNum.nan_add])

theorem foldl_sums_fst_nan_of_mem (hs : List Hour)
    (h : ∃ x ∈ hs, x.chanceofremdry = .nan) (s : JsNum × JsNum) :
    (hs.foldl (fun s h => (s.1.add h.chanceofremdry, s.2.add h.precipMM)) s).1 = .nan := by
  induction hs generalizing s with
  | nil => obtain ⟨x, hx, _⟩ := h; cases hx
  | cons y ys ih =>
    obtain ⟨x, hx, hnan⟩ := h
    rcases List.mem_cons.1 hx with hxy | hxs
    · subst hxy
      simp only [List.foldl_cons]
      exact foldl_sums_fst_nan ys _ (by rw [hnan, JsNum.add_nan])
    · simp only [List.foldl_cons]
      exact ih ⟨x, hxs, hnan⟩ _

theorem foldl_sums_snd_nan_of_mem (hs : List Hour)
    (h : ∃ x ∈ hs, x.precipMM = .nan) (s : JsNum × JsNum) :
    (hs.foldl (fun s h => (s.1.add h.chanceofremdry, s.2.add h.precipMM)) s).2 = .nan := by
  induction hs generalizing s with
  | nil => obtain ⟨x, hx, _⟩ := h; cases hx
  | cons y ys ih =>
    obtain ⟨x, hx, hnan⟩ := h
    rcases List.mem_cons.1 hx with hxy | hxs
    · subst hxy
      simp only [List.foldl_cons]
      exact foldl_sums_snd_nan ys _ (by rw [hnan, JsNum.add_nan])
    · simp only [List.foldl_cons]
      exact ih ⟨x, hxs, hnan⟩ _

theorem cmpLe_toEval_iff {A : Type} (a b : RatedSite A) :
    cmpLe a.toEval b.toEval = true ↔ beats a b := by
  unfold cmpLe drynessCmp RatedSite.toEval JsNum.strictNeq beats
  by_cases h : b.dryness = a.dryness
  · simp [h, JsNum.isNaN, JsNum.sub, sortCompareNonpos, sub_nonpos,
      lt_self_iff_false]
  · simp [h, JsNum.isNaN, JsNum.sub, sortCompareNonpos, sub_nonpos,
      JsNum.num.injEq]
    constructor
    · intro hle
      exact lt_of_le_of_ne hle h
    · exact le_of_lt

theorem not_beats_iff {A : Type} (a b : RatedSite A) :
    ¬ beats a b ↔ strictlyBeats b a := by
  unfold beats strictlyBeats
  push_neg
  constructor
  · rintro ⟨h1, h2⟩
    rcases eq_or_lt_of_le h1 with heq | hlt
    · exact Or.inr ⟨heq, h2 heq.symm⟩
    · exact Or.inl hlt
  · rintro (hlt | ⟨heq, hp⟩)
    · exact ⟨le_of_lt hlt, fun he => by linarith⟩
    · exact ⟨le_of_eq heq, fun _ => hp⟩

theorem cmpLe_toEval_false_iff {A : Type} (a b : RatedSite A) :
    cmpLe a.toEval b.toEval = false ↔ strictlyBeats b a := by
  rw [← not_beats_iff, ← cmpLe_toEval_iff]
  simp

theorem beats_refl {A : Type} (a : RatedSite A) : beats a a :=
  Or.inr ⟨rfl, le_refl _⟩

theorem strictlyBeats_beats {A : Type} {a b : RatedSite A}
    (h : strictlyBeats a b) : beats a b := by
  rcases h with h | ⟨he, hp⟩
  · exact Or.inl h
  · exact Or.inr ⟨he, le_of_lt hp⟩

theorem beats_trans {A : Type} {a b c : RatedSite A}
    (h1 : beats a b) (h2 : beats b c) : beats a c := by
  unfold beats at *
  rcases h1 with h1 | ⟨e1, p1⟩ <;> rcases h2 with h2 | ⟨e2, p2⟩
  · exact Or.inl (lt_trans h2 h1)
  · exact Or.inl (e2 ▸ h1)
  · exact Or.inl (e1 ▸ h2)
  · exact Or.inr ⟨e2.trans e1, le_trans p1 p2⟩

theorem strictlyBeats_of_strictlyBeats_beats {A : Type} {a b c : RatedSite A}
    (h1 : strictlyBeats a b) (h2 : beats b c) : strictlyBeats a c := by
  unfold strictlyBeats at *
  unfold beats at h2
  rcases h1 with h1 | ⟨e1, p1⟩ <;> rcases h2 with h2 | ⟨e2, p2⟩
  · exact Or.inl (lt_trans h2 h1)
  · exact Or.inl (e2 ▸ h1)
  · exact Or.inl (e1 ▸ h2)
  · exact Or.inr ⟨e2.trans e1, lt_of_lt_of_le p1 p2⟩

theorem strictlyBeats_of_beats_strictlyBeats {A : Type} {a b c : RatedSite A}
    (h1 : beats a b) (h2 : strictlyBeats b c) : strictlyBeats a c := by
  unfold strictlyBeats at *
  unfold beats at h1
  rcases h1 with h1 | ⟨e1, p1⟩ <;> rcases h2 with h2 | ⟨e2, p2⟩
  · exact Or.inl (lt_trans h2 h1)
  · exact Or.inl (e2 ▸ h1)
  · exact Or.inl (e1 ▸ h2)
  · exact Or.inr ⟨e2.trans e1, lt_of_le_of_lt p1 p2⟩

theorem toEval_ratedFold {A : Type} :
    ∀ (l : List (RatedSite A)) (a : RatedSite A),
      firstMinFold cmpLe a.toEval (l.map RatedSite.toEval) = (ratedFold a l).toEval := by
  intro l
  induction l with
  | nil => intro a; rfl
  | cons x xs ih =>
    intro a
    show firstMinFold cmpLe
      (if cmpLe a.toEval x.toEval then a.toEval else x.toEval)
      (xs.map RatedSite.toEval) = (ratedFold (if cmpLe a.toEval x.toEval then a else x) xs).toEval
    by_cases hb : cmpLe a.toEval x.toEval
    · simp only [hb, if_true]
      exact ih a
    · simp only [hb, if_false]
      exact ih x

theorem ratedFold_first_min {A : Type} :
    ∀ (l : List (RatedSite A)) (a : RatedSite A),
      ∃ l₁ l₂, a :: l = l₁ ++ ratedFold a l :: l₂ ∧
        (∀ x ∈ a :: l, beats (ratedFold a l) x) ∧
        (∀ x ∈ l₁, strictlyBeats (ratedFold a l) x) := by
  intro l
  induction l with
  | nil =>
    intro a
    exact ⟨[], [], rfl, by
      intro x hx
      rcases List.mem_singleton.1 hx with rfl
      exact beats_refl x, by simp⟩
  | cons x xs ih =>
    intro a
    have hfold : ratedFold a (x :: xs) =
        ratedFold (if cmpLe a.toEval x.toEval then a else x) xs := rfl
    by_cases hb : cmpLe a.toEval x.toEval = true
    · have hax : beats a x := (cmpLe_toEval_iff a x).1 hb
      rw [hfold, if_pos hb]
      obtain ⟨l₁, l₂, hdec, hmin, hstrict⟩ := ih a
      cases l₁ with
      | nil =>
        simp only [List.nil_append] at hdec
        obtain ⟨ham, hl⟩ := List.cons.inj hdec
        refine ⟨[], x :: xs, ?_, ?_, by simp⟩
        · simp only [List.nil_append]
          rw [← ham]
        · intro y hy
          rcases List.mem_cons.1 hy with rfl | hy'
          · exact hmin y (List.mem_cons_self _ _)
          · rcases List.mem_cons.1 hy' with rfl | hy''
            · exact ham ▸ hax
            · exact hmin y (List.mem_cons_of_mem _ hy'')
      | cons a₀ t =>
        rw [List.cons_append] at hdec
        obtain ⟨ha, hxs⟩ := List.cons.inj hdec
        subst ha
        have hsa : strictlyBeats (ratedFold a xs) a :=
          hstrict a (List.mem_cons_self _ _)
        refine ⟨a :: x :: t, l₂, ?_, ?_, ?_⟩
        · rw [List.cons_append, List.cons_append, ← hxs]
        · intro y hy
          rcases List.mem_cons.1 hy with rfl | hy'
          · exact hmin y (List.mem_cons_self _ _)
          · rcases List.mem_cons.1 hy' with rfl | hy''
            · exact strictlyBeats_beats
                (strictlyBeats_of_strictlyBeats_beats hsa hax)
            · exact hmin y (List.mem_cons_of_mem _ hy'')
        · intro y hy
          rcases List.mem_cons.1 hy with rfl | hy'
          · exact hsa
          · rcases List.mem_cons.1 hy' with rfl | hy''
            · exact strictlyBeats_of_strictlyBeats_beats hsa hax
            · exact hstrict y (List.mem_cons_of_mem _ hy'')
    · have hb' : cmpLe a.toEval x.toEval = false := by simpa using hb
      have hxa : strictlyBeats x a := (cmpLe_toEval_false_iff a x).1 hb'
      rw [hfold, if_neg hb]
      obtain ⟨l₁, l₂, hdec, hmin, hstrict⟩ := ih x
      cases l₁ with
      | nil =>
        simp only [List.nil_append] at hdec
        obtain ⟨hxm, hl⟩ := List.cons.inj hdec
        refine ⟨[a], xs, ?_, ?_, ?_⟩
        · rw [List.singleton_append, ← hxm]
        · intro y hy
          rcases List.mem_cons.1 hy with rfl | hy'
          · exact strictlyBeats_beats (hxm ▸ hxa)
          · exact hmin y hy'
        · intro y hy
          rcases List.mem_singleton.1 hy with rfl
          exact hxm ▸ hxa
      | cons x₀ t =>
        rw [List.cons_append] at hdec
        obtain ⟨hx, hxs⟩ := List.cons.inj hdec
        subst hx
        have hsx : strictlyBeats (ratedFold x xs) x :=
          hstrict x (List.mem_cons_self _ _)
        have hsa : strictlyBeats (ratedFold x xs) a :=
          strictlyBeats_of_strictlyBeats_beats hsx (strictlyBeats_beats hxa)
        refine ⟨a :: x :: t, l₂, ?_, ?_, ?_⟩
        · rw [List.cons_append, List.cons_append, ← hxs]
        · intro y hy
          rcases List.mem_cons.1 hy with rfl | hy'
          · exact strictlyBeats_beats hsa
          · exact hmin y hy'
        · intro y hy
          rcases List.mem_cons.1 hy with rfl | hy'
          · exact hsa
          · rcases List.mem_cons.1 hy' with rfl | hy''
            · exact hsx
            · exact hstrict y (List.mem_cons_of_mem _ hy'')

/-- C1: For every list of (numeric) site evaluations, the selection step
of `findBestWeather` (stable sort by `drynessCmp`, then `results[0]`)
returns an evaluation of the list that is maximal by dryness score
descending, with ties broken by total precipitation ascending, and
remaining full ties resolved in favor of the earlier-listed evaluation:
the selected `e` is at least as good as every entry, and every entry
listed before `e` is strictly worse under that order. -/
theorem findBestWeather_selects_first_maximal {A : Type}
    (l : List (RatedSite A)) (hne : l ≠ []) :
    ∃ l₁ e l₂, l = l₁ ++ e :: l₂ ∧
      selectBest (l.map RatedSite.toEval) = some e.toEval ∧
      (∀ x ∈ l, x.dryness < e.dryness ∨
        (x.dryness = e.dryness ∧ e.precip ≤ x.precip)) ∧
      (∀ x ∈ l₁, x.dryness < e.dryness ∨
        (x.dryness = e.dryness ∧ e.precip < x.precip)) := by
  obtain ⟨a, rest, rfl⟩ := List.exists_cons_of_ne_nil hne
  obtain ⟨l₁, l₂, hdec, hmin, hstrict⟩ := ratedFold_first_min rest a
  refine ⟨l₁, ratedFold a rest, l₂, hdec, ?_, ?_, ?_⟩
  · rw [List.map_cons, selectBest_cons, toEval_ratedFold]
  · intro x hx
    exact hmin x hx
  · intro x hx
    exact hstrict x hx

/-- Witness for C1 at the spec's tie-break scenario (§8): two entries
with dryness 80 and precipitations 1.2 and 0.5; the theorem applies and
selects an entry of the list. -/
theorem findBestWeather_selects_first_maximal_witness :
    ∃ (l₁ : List (RatedSite Unit)) (e : RatedSite Unit) (l₂ : List (RatedSite Unit)),
      [(⟨(), 80, 6/5, ""⟩ : RatedSite Unit), ⟨(), 80, 1/2, ""⟩] = l₁ ++ e :: l₂ ∧
      selectBest ([(⟨(), 80, 6/5, ""⟩ : RatedSite Unit),
          ⟨(), 80, 1/2, ""⟩].map RatedSite.toEval) = some e.toEval ∧
      (∀ x ∈ [(⟨(), 80, 6/5, ""⟩ : RatedSite Unit), ⟨(), 80, 1/2, ""⟩],
        x.dryness < e.dryness ∨
          (x.dryness = e.dryness ∧ e.precip ≤ x.precip)) ∧
      (∀ x ∈ l₁, x.dryness < e.dryness ∨
        (x.dryness = e.dryness ∧ e.precip < x.precip)) :=
  findBestWeather_selects_first_maximal _ (List.cons_ne_nil _ _)

/-- C4: A thrown fetch/evaluation error for one candidate never aborts
`findBestWeather`: removing a failing candidate does not change the
outcome (the candidate is excluded, the rest are still evaluated); when
every candidate fails the result is `none` (no site found, not an
error); and as soon as one candidate succeeds the result is present. -/
theorem findBestWeather_failure_isolation {A : Type}
    (fetch : A → Except String WeatherData) :
    (∀ (l₁ l₂ : List A) (bad : A) (err : String), fetch bad = .error err →
      findBestWeather fetch (l₁ ++ bad :: l₂) = findBestWeather fetch (l₁ ++ l₂)) ∧
    (∀ points : List A, (∀ p ∈ points, ∀ d, fetch p ≠ .ok d) →
      findBestWeather fetch points = none) ∧
    (∀ points : List A, (∃ p ∈ points, ∃ d, fetch p = .ok d) →
      (findBestWeather fetch points).isSome = true) := by
  refine ⟨?_, ?_, ?_⟩
  · intro l₁ l₂ bad err herr
    unfold findBestWeather
    have hb : collectResults fetch (bad :: l₂) = collectResults fetch l₂ := by
      simp [collectResults, herr]
    rw [collectResults_append, collectResults_append, hb]
  · intro points hfail
    unfold findBestWeather
    rw [collectResults_eq_nil fetch points hfail]
    rfl
  · rintro points ⟨p, hp, d, hd⟩
    have hmem : (⟨p, d.dryness, d.precip, d.nearest⟩ : SiteEval A) ∈
        jsSort cmpLe (collectResults fetch points) :=
      (mem_jsSort _ _ _).2 (collectResults_mem_of_ok fetch points p d hp hd)
    unfold findBestWeather selectBest
    cases hs : jsSort cmpLe (collectResults fetch points) with
    | nil => rw [hs] at hmem; cases hmem
    | cons b bs => rfl

/-- Witness for C4: with a fetch that fails on `false` and succeeds on
`true`, dropping the failing candidate leaves the result unchanged, an
all-failing list yields `none`, and a list with a success yields a
result. -/
theorem findBestWeather_failure_isolation_witness :
    findBestWeather (fun b : Bool =>
        if b then Except.ok ⟨JsNum.num 1, JsNum.num 0, ""⟩
        else Except.error "fail") ([true] ++ false :: []) =
      findBestWeather (fun b : Bool =>
        if b then Except.ok ⟨JsNum.num 1, JsNum.num 0, ""⟩
        else Except.error "fail") ([true] ++ []) ∧
    findBestWeather (fun b : Bool =>
        if b then Except.ok ⟨JsNum.num 1, JsNum.num 0, ""⟩
        else Except.error "fail") [false] = none ∧
    (findBestWeather (fun b : Bool =>
        if b then Except.ok ⟨JsNum.num 1, JsNum.num 0, ""⟩
        else Except.error "fail") [true]).isSome = true := by
  refine ⟨(findBestWeather_failure_isolation _).1 [true] [] false "fail" rfl,
    (findBestWeather_failure_isolation _).2.1 [false] ?_,
    (findBestWeather_failure_isolation _).2.2 [true]
      ⟨true, List.mem_singleton.2 rfl, ⟨JsNum.num 1, JsNum.num 0, ""⟩, rfl⟩⟩
  intro p hp d
  rcases List.mem_singleton.1 hp with rfl
  simp

/-- C10: The `results` list built by `findBestWeather` before sorting is
exactly the subsequence of the candidate list whose fetch succeeded, in
the same relative order as generated: it equals the order-preserving
`filterMap` of the candidates, and its projection to candidate points is
a sublist of the candidate list. -/
theorem collectResults_is_ordered_subsequence {A : Type}
    (fetch : A → Except String WeatherData) (points : List A) :
    collectResults fetch points = points.filterMap (fun p =>
      match fetch p with
      | .ok d => some ⟨p, d.dryness, d.precip, d.nearest⟩
      | .error _ => none) ∧
    List.Sublist ((collectResults fetch points).map SiteEval.point) points :=
  ⟨collectResults_eq_filterMap fetch points,
    map_point_collectResults_sublist fetch points⟩

/-- Counterexample to C9: a candidate whose (list-shaped but empty)
hourly series yields dryness `0/0 = NaN` is pushed into the results and
selected, so `findBestWeather` can return an evaluation whose dryness
score is not a number. -/
theorem findBestWeather_returns_nan_dryness :
    findBestWeather (fun _ : Unit => evalHourly (some []) "") [()] =
      some ⟨(), JsNum.nan, JsNum.num 0, ""⟩ := by
  rfl

/-- C9 (amended): whenever every evaluation reaching the selector has a
numeric (non-NaN) dryness score, the evaluation returned by the
selection step of `findBestWeather` has a numeric dryness score. -/
theorem selectBest_preserves_numeric_dryness {A : Type}
    (l : List (SiteEval A)) (e : SiteEval A)
    (h : ∀ x ∈ l, x.dryness.isNaN = false)
    (hsel : selectBest l = some e) : e.dryness.isNaN = false := by
  have hmem : e ∈ jsSort cmpLe l := by
    unfold selectBest at hsel
    cases hs : jsSort cmpLe l with
    | nil => rw [hs] at hsel; cases hsel
    | cons b bs =>
      rw [hs] at hsel
      injection hsel with hbe
      exact List.mem_cons.2 (Or.inl hbe.symm)
  exact h e ((mem_jsSort _ _ _).1 hmem)

/-- Witness for C9 (amended) on a one-element numeric list. -/
theorem selectBest_preserves_numeric_dryness_witness :
    (∀ x ∈ [(⟨(), JsNum.num 50, JsNum.num 0, ""⟩ : SiteEval Unit)],
      x.dryness.isNaN = false) ∧
    (⟨(), JsNum.num 50, JsNum.num 0, ""⟩ : SiteEval Unit).dryness.isNaN = false :=
  ⟨by decide, selectBest_preserves_numeric_dryness
    [⟨(), JsNum.num 50, JsNum.num 0, ""⟩]
    ⟨(), JsNum.num 50, JsNum.num 0, ""⟩ (by decide) rfl⟩

/-- Counterexample to C5: on an empty, list-shaped hourly series the
evaluator does not fail with an incomplete-data error; it returns
successfully with dryness `0/0 = NaN` and precipitation 0. -/
theorem evalHourly_empty_no_error :
    evalHourly (some []) "" = .ok ⟨JsNum.nan, JsNum.num 0, ""⟩ := by
  rfl

/-- C5 (amended): the evaluator fails with the incomplete-data error
exactly when the series is missing or not list-shaped; an empty but
list-shaped series yields a successful result with `NaN` dryness and 0
precipitation; a non-empty series of numeric hours yields the arithmetic
mean of the dryness-chance values and the sum of the precipitation
values. -/
theorem evalHourly_behavior (s : String) :
    evalHourly none s = .error "Unvollständige Wetterdaten erhalten." ∧
    evalHourly (some []) s = .ok ⟨JsNum.nan, JsNum.num 0, s⟩ ∧
    (∀ hq : List (ℚ × ℚ), hq ≠ [] →
      evalHourly (some (hq.map (fun v => ⟨.num v.1, .num v.2⟩))) s =
        .ok ⟨.num ((hq.map Prod.fst).sum / hq.length),
          .num (hq.map Prod.snd).sum, s⟩) := by
  refine ⟨rfl, rfl, ?_⟩
  intro hq hne
  have hlen : ((hq.map (fun v : ℚ × ℚ =>
      Hour.mk (.num v.1) (.num v.2))).length : ℚ) = (hq.length : ℚ) := by
    simp
  have hne' : (hq.length : ℚ) ≠ 0 :=
    Nat.cast_ne_zero.mpr (fun h => hne (List.length_eq_zero.mp h))
  simp only [evalHourly, foldl_sums_num hq 0 0, zero_add, hlen]
  simp [JsNum.div, hne']

/-- Witness for C5 (amended) on the one-hour series `[(80, 1)]`. -/
theorem evalHourly_behavior_witness :
    ([((80 : ℚ), (1 : ℚ))] ≠ ([] : List (ℚ × ℚ))) ∧
    evalHourly (some ([((80 : ℚ), (1 : ℚ))].map
        (fun v => ⟨.num v.1, .num v.2⟩))) "" =
      .ok ⟨.num (([((80 : ℚ), (1 : ℚ))].map Prod.fst).sum /
          [((80 : ℚ), (1 : ℚ))].length),
        .num ([((80 : ℚ), (1 : ℚ))].map Prod.snd).sum, ""⟩ :=
  ⟨by decide, (evalHourly_behavior "").2.2 [((80 : ℚ), (1 : ℚ))] (by decide)⟩

/-- Counterexample to C6: an hour whose dryness-chance value could not
be parsed (`Number(...)` returned `NaN`) does not make the evaluator
fail; it returns successfully with a `NaN` dryness score. -/
theorem evalHourly_unparsable_no_error :
    evalHourly (some [⟨JsNum.nan, JsNum.num 0⟩]) "" =
      .ok ⟨JsNum.nan, JsNum.num 0, ""⟩ := by
  simp [evalHourly, JsNum.add, JsNum.nan_div]

/-- C6 (amended): an unparsable (NaN-coerced) dryness-chance or
precipitation value is not treated as a silent zero and raises no error:
it propagates, making the evaluator return successfully with a `NaN`
dryness score (resp. `NaN` total precipitation). -/
theorem evalHourly_nan_propagates (hs : List Hour) (s : String) :
    ((∃ h ∈ hs, h.chanceofremdry = JsNum.nan) →
      ∃ r, evalHourly (some hs) s = .ok r ∧ r.dryness = JsNum.nan) ∧
    ((∃ h ∈ hs, h.precipMM = JsNum.nan) →
      ∃ r, evalHourly (some hs) s = .ok r ∧ r.precip = JsNum.nan) := by
  constructor
  · intro hex
    refine ⟨_, rfl, ?_⟩
    show ((hs.foldl (fun s h => (s.1.add h.chanceofremdry, s.2.add h.precipMM))
      (JsNum.num 0, JsNum.num 0)).1.div (JsNum.num (hs.length : ℚ))) = JsNum.nan
    rw [foldl_sums_fst_nan_of_mem hs hex _, JsNum.nan_div]
  · intro hex
    refine ⟨_, rfl, ?_⟩
    show (hs.foldl (fun s h => (s.1.add h.chanceofremdry, s.2.add h.precipMM))
      (JsNum.num 0, JsNum.num 0)).2 = JsNum.nan
    exact foldl_sums_snd_nan_of_mem hs hex _

/-- Witness for C6 (amended) on a one-hour series with an unparsable
dryness value. -/
theorem evalHourly_nan_propagates_witness :
    (∃ h ∈ [(⟨JsNum.nan, JsNum.nan⟩ : Hour)], h.chanceofremdry = JsNum.nan) ∧
    (∃ r, evalHourly (some [(⟨JsNum.nan, JsNum.nan⟩ : Hour)]) "x" = .ok r ∧
      r.dryness = JsNum.nan) :=
  ⟨⟨⟨JsNum.nan, JsNum.nan⟩, List.mem_singleton.2 rfl, rfl⟩,
    (evalHourly_nan_propagates [⟨JsNum.nan, JsNum.nan⟩] "x").1
      ⟨⟨JsNum.nan, JsNum.nan⟩, List.mem_singleton.2 rfl, rfl⟩⟩

/-- Counterexample to C7: a negative radius (-5) and an infinite radius
both pass the submit-handler validation (which only rejects `NaN` and an
empty location) and are handed to `generateCandidatePoints` unchanged. -/
theorem radius_validation_gap :
    radiusPassedToGenerator "Berlin" (JsNum.num (-5)) true =
      some (JsNum.num (-5)) ∧
    radiusPassedToGenerator "Berlin" JsNum.inf true = some JsNum.inf :=
  ⟨rfl, rfl⟩

/-- C7 (amended): the submit handler rejects, before candidate
generation, exactly a `NaN` radius or an empty place name; every other
radius — including non-positive and infinite values — reaches
`generateCandidatePoints` unchanged whenever geocoding succeeds. -/
theorem radius_validation_behavior (location : String) (radiusKm : JsNum)
    (geoFound : Bool) :
    (radiusKm.isNaN = true →
      radiusPassedToGenerator location radiusKm geoFound = none) ∧
    (location = "" →
      radiusPassedToGenerator location radiusKm geoFound = none) ∧
    (location ≠ "" → radiusKm.isNaN = false → geoFound = true →
      radiusPassedToGenerator location radiusKm geoFound = some radiusKm) := by
  refine ⟨?_, ?_, ?_⟩
  · intro h
    simp [radiusPassedToGenerator, submitAccepted, h]
  · intro h
    simp [radiusPassedToGenerator, submitAccepted, h]
  · intro h1 h2 h3
    simp [radiusPassedToGenerator, submitAccepted, h1, h2, h3]

/-- Witness for C7 (amended): a `NaN` radius is rejected, a positive
numeric radius reaches the generator. -/
theorem radius_validation_behavior_witness :
    radiusPassedToGenerator "Berlin" JsNum.nan true = none ∧
    radiusPassedToGenerator "Berlin" (JsNum.num 7) true = some (JsNum.num 7) :=
  ⟨(radius_validation_behavior "Berlin" JsNum.nan true).1 rfl,
    (radius_validation_behavior "Berlin" (JsNum.num 7) true).2.2
      (by decide) rfl rfl⟩

/-- C2: For every origin not at the poles and every positive radius,
`generateCandidatePoints` returns exactly 9 points: the origin first
(exactly), followed by the eight compass-bearing offsets for 0°, 45°,
90°, 135°, 180°, 225°, 270°, 315°, in that order. -/
theorem generateCandidatePoints_nine (lat lon radiusKm : ℝ)
    (_h0 : 0 < radiusKm) (_h90 : lat ≠ 90) (_hneg90 : lat ≠ -90) :
    (generateCandidatePoints lat lon radiusKm).length = 9 ∧
    (generateCandidatePoints lat lon radiusKm).head? = some (lat, lon) ∧
    (generateCandidatePoints lat lon radiusKm).tail =
      [offsetPoint lat lon radiusKm 0, offsetPoint lat lon radiusKm 45,
        offsetPoint lat lon radiusKm 90, offsetPoint lat lon radiusKm 135,
        offsetPoint lat lon radiusKm 180, offsetPoint lat lon radiusKm 225,
        offsetPoint lat lon radiusKm 270, offsetPoint lat lon radiusKm 315] :=
  ⟨rfl, rfl, rfl⟩

/-- Witness for C2 at origin (0, 0) with radius 1 km. -/
theorem generateCandidatePoints_nine_witness :
    (generateCandidatePoints 0 0 1).length = 9 ∧
    (generateCandidatePoints 0 0 1).head? = some ((0 : ℝ), (0 : ℝ)) ∧
    (generateCandidatePoints 0 0 1).tail =
      [offsetPoint 0 0 1 0, offsetPoint 0 0 1 45,
        offsetPoint 0 0 1 90, offsetPoint 0 0 1 135,
        offsetPoint 0 0 1 180, offsetPoint 0 0 1 225,
        offsetPoint 0 0 1 270, offsetPoint 0 0 1 315] :=
  generateCandidatePoints_nine 0 0 1 (by norm_num) (by norm_num) (by norm_num)

/-- C3: Every generated non-origin candidate at bearing θ = 45°·i equals
`(lat + latDelta·cos(θ_rad), lon + lonDelta·sin(θ_rad))` with
`latDelta = radiusKm/111` and
`lonDelta = radiusKm/(111·cos(lat·π/180))`. -/
theorem generateCandidatePoints_offsets (lat lon radiusKm : ℝ) (i : Fin 8) :
    (generateCandidatePoints lat lon radiusKm).get
      ⟨i.1 + 1, by
        have hi := i.isLt
        simp only [generateCandidatePoints, directions, List.length_cons,
          List.length_map]
        omega⟩ =
      (lat + radiusKm / 111 * Real.cos (45 * (i.1 : ℝ) * (Real.pi / 180)),
        lon + radiusKm / (111 * Real.cos (lat * (Real.pi / 180))) *
          Real.sin (45 * (i.1 : ℝ) * (Real.pi / 180))) := by
  fin_cases i <;>
    norm_num [generateCandidatePoints, directions, offsetPoint, degToRad]

/-- Counterexample to C8: at latitude 90° the generator neither fails
nor special-cases the longitude delta: it returns the full 9-point list
built by the same unconditional formula, whose longitude-delta
denominator `111 * cos(90·π/180)` is exactly zero — the division by zero
is unguarded instead of failing loudly. -/
theorem generateCandidatePoints_pole_unguarded :
    (generateCandidatePoints 90 0 111).length = 9 ∧
    (generateCandidatePoints 90 0 111).tail =
      directions.map (offsetPoint 90 0 111) ∧
    (111 : ℝ) * Real.cos (90 * degToRad) = 0 := by
  refine ⟨rfl, rfl, ?_⟩
  have h : (90 : ℝ) * degToRad = Real.pi / 2 := by
    unfold degToRad
    ring
  rw [h, Real.cos_pi_div_two, mul_zero]

/-- C8 (amended): at both poles the generator runs the same straight-line
code as everywhere else: it cannot throw and applies no special case,
returning the origin plus the eight unconditional-formula offsets, while
the longitude-delta denominator `111·cos(lat·π/180)` is exactly zero
there (in IEEE doubles the nearly-zero cosine instead yields an enormous
finite longitude offset). -/
theorem generateCandidatePoints_pole_behavior (lon radiusKm : ℝ) :
    generateCandidatePoints 90 lon radiusKm =
      ((90 : ℝ), lon) :: directions.map (offsetPoint 90 lon radiusKm) ∧
    generateCandidatePoints (-90) lon radiusKm =
      ((-90 : ℝ), lon) :: directions.map (offsetPoint (-90) lon radiusKm) ∧
    (111 : ℝ) * Real.cos (90 * degToRad) = 0 ∧
    (111 : ℝ) * Real.cos ((-90 : ℝ) * degToRad) = 0 := by
  refine ⟨rfl, rfl, ?_, ?_⟩
  · have h : (90 : ℝ) * degToRad = Real.pi / 2 := by
      unfold degToRad
      ring
    rw [h, Real.cos_pi_div_two, mul_zero]
  · have h : (-90 : ℝ) * degToRad = -(Real.pi / 2) := by
      unfold degToRad
      ring
    rw [h, Real.cos_neg, Real.cos_pi_div_two, mul_zero]

end Sonnenschein
